import Mathlib

/-!
Verification of the INS-001 caching / precompute / scoring subsystem
(`src/ins-001/api/app/services`).

The Python modules are shallowly embedded:

* float arithmetic is embedded as exact rational arithmetic (`ℚ`);
* `np.sqrt` / `np.linalg.norm`'s square root is abstracted as an explicit
  function parameter `sq : ℚ → ℚ` passed to every definition that the
  source computes with a square root; for concrete evaluations we
  instantiate it with `ratSqrt`, which is exact on perfect squares
  (exactly the inputs used by the concrete witnesses below, where the
  floating-point computation is also exact);
* fallible code is embedded with `Except`, randomness as explicit
  oracle parameters, and the async dataflow of the precompute scheduler
  as a deterministic function of its subtask outcomes.
-/

/-- An embedding vector (`list[float]` in the source). -/
abbrev Vec := List ℚ

/-- Dot product of two vectors (`np.dot`); zips and truncates like numpy
would only for equal-length inputs, which is the only case exercised. -/
def dotQ (a b : Vec) : ℚ := (List.zipWith (· * ·) a b).sum

/-- Sum of squares of a vector: the square of `np.linalg.norm`. -/
def sumSq (a : Vec) : ℚ := (a.map (fun x => x * x)).sum

/-- `np.mean` over a list of rationals (0 on the empty list, which the
source never hits on the guarded paths). -/
def listMean (l : List ℚ) : ℚ := l.sum / (l.length : ℚ)

/-- Concrete square-root model used for evaluation: exact on rationals
whose numerator and denominator are perfect squares, and `0` on
nonpositive inputs (matching `np.sqrt 0 = 0`). -/
def ratSqrt (q : ℚ) : ℚ :=
  if q ≤ 0 then 0 else (Nat.sqrt q.num.toNat : ℚ) / (Nat.sqrt q.den : ℚ)

/-- `ratSqrt` is exact on squares of naturals. -/
theorem ratSqrt_natCast_sq (n : ℕ) : ratSqrt ((n : ℚ) * n) = n := by
  unfold ratSqrt
  rcases Nat.eq_zero_or_pos n with h | h
  · subst h; norm_num
  · have hn : (0 : ℚ) < n := by exact_mod_cast h
    rw [if_neg (not_le.mpr (mul_pos hn hn))]
    have h1 : ((n : ℚ) * n) = ((n * n : ℕ) : ℚ) := by push_cast; ring
    rw [h1, Rat.num_natCast, Rat.den_natCast]
    rw [Int.toNat_natCast, Nat.sqrt_eq, Nat.sqrt_one]
    norm_num

theorem ratSqrt_zero : ratSqrt 0 = 0 := by norm_num [ratSqrt]

theorem ratSqrt_one : ratSqrt 1 = 1 := by
  have := ratSqrt_natCast_sq 1; norm_num at this; exact this

theorem ratSqrt_nine : ratSqrt 9 = 3 := by
  have := ratSqrt_natCast_sq 3; norm_num at this; exact this

theorem ratSqrt_sixteen : ratSqrt 16 = 4 := by
  have := ratSqrt_natCast_sq 4; norm_num at this; exact this

theorem ratSqrt_twentyfive : ratSqrt 25 = 5 := by
  have := ratSqrt_natCast_sq 5; norm_num at this; exact this

/-!  ## `app/services/scoring.py`  -/

/-- `cosine_similarity(a, b)`: `dot / (norm_a * norm_b)`, and `0.0` when
either norm is zero.  `sq` stands for the square root used by
`np.linalg.norm`. -/
def cosine_similarity (sq : ℚ → ℚ) (a b : Vec) : ℚ :=
  let dot := dotQ a b
  let norm_a := sq (sumSq a)
  let norm_b := sq (sumSq b)
  if norm_a = 0 ∨ norm_b = 0 then 0 else dot / (norm_a * norm_b)

/-- `RELEVANCE_THRESHOLD = 0.15`. -/
def RELEVANCE_THRESHOLD : ℚ := 15 / 100

/-- The unordered pairs `(i, j)`, `i < j`, of a list, in the order the
double loop of `calculate_divergence` / `calculate_spread_clues_only`
visits them. -/
def offDiagPairs : List Vec → List (Vec × Vec)
  | [] => []
  | x :: xs => xs.map (fun y => (x, y)) ++ offDiagPairs xs

/-- `calculate_spread_clues_only(clue_embeddings)`: mean pairwise cosine
distance among the clues, scaled by 100; `0.0` for fewer than 2 clues. -/
def calculate_spread_clues_only (sq : ℚ → ℚ) (clue_embeddings : List Vec) : ℚ :=
  if clue_embeddings.length < 2 then 0
  else
    listMean ((offDiagPairs clue_embeddings).map
      (fun p => 1 - cosine_similarity sq p.1 p.2)) * 100

/-- `calculate_divergence(clue_embeddings, prompt_embeddings)`: mean
pairwise cosine distance over prompts ++ clues, scaled by 100. -/
def calculate_divergence (sq : ℚ → ℚ)
    (clue_embeddings prompt_embeddings : List Vec) : ℚ :=
  let all_embeddings := prompt_embeddings ++ clue_embeddings
  if all_embeddings.length < 2 then 0
  else
    listMean ((offDiagPairs all_embeddings).map
      (fun p => 1 - cosine_similarity sq p.1 p.2)) * 100

/-- The dictionary returned by `score_radiation` / `score_union`. -/
structure ScoreResult where
  relevance : ℚ
  relevance_individual : List ℚ
  spread : ℚ
  divergence : ℚ
  valid : Bool
deriving Repr, DecidableEq

/-- `score_radiation(clue_embeddings, seed_embedding)`. -/
def score_radiation (sq : ℚ → ℚ) (clue_embeddings : List Vec)
    (seed_embedding : Vec) : ScoreResult :=
  if clue_embeddings = [] then
    ⟨0, [], 0, 0, false⟩
  else
    let relevance_scores := clue_embeddings.map
      (fun clue => cosine_similarity sq clue seed_embedding)
    let overall_relevance := listMean relevance_scores
    let overall_spread := calculate_spread_clues_only sq clue_embeddings
    let overall_divergence := calculate_divergence sq clue_embeddings [seed_embedding]
    ⟨overall_relevance, relevance_scores, overall_spread, overall_divergence,
      decide (RELEVANCE_THRESHOLD ≤ overall_relevance)⟩

/-- `score_union(clue_embeddings, anchor_embedding, target_embedding)`:
per-clue relevance is `min(sim_a, sim_t)`; overall relevance is the mean;
`divergence` aliases the clue-only spread. -/
def score_union (sq : ℚ → ℚ) (clue_embeddings : List Vec)
    (anchor_embedding target_embedding : Vec) : ScoreResult :=
  if clue_embeddings = [] then
    ⟨0, [], 0, 0, false⟩
  else
    let relevance_scores := clue_embeddings.map (fun clue =>
      min (cosine_similarity sq clue anchor_embedding)
          (cosine_similarity sq clue target_embedding))
    let overall_relevance := listMean relevance_scores
    let overall_spread := calculate_spread_clues_only sq clue_embeddings
    ⟨overall_relevance, relevance_scores, overall_spread, overall_spread,
      decide (RELEVANCE_THRESHOLD ≤ overall_relevance)⟩

/-- C1: in dual-anchor (union) mode the overall relevance is the mean over
the clues of `min(sim(clue, anchor), sim(clue, target))`, and every
per-clue score is bounded by each of the two similarities, hence by the
lower one. -/
theorem score_union_relevance_mean_of_min (sq : ℚ → ℚ)
    (clues : List Vec) (anchor target : Vec) (h : clues ≠ []) :
    (score_union sq clues anchor target).relevance =
      listMean (clues.map (fun c =>
        min (cosine_similarity sq c anchor) (cosine_similarity sq c target))) ∧
    ∀ c ∈ clues,
      min (cosine_similarity sq c anchor) (cosine_similarity sq c target) ≤
        cosine_similarity sq c anchor ∧
      min (cosine_similarity sq c anchor) (cosine_similarity sq c target) ≤
        cosine_similarity sq c target := by
  refine ⟨?_, ?_⟩
  · simp [score_union, h]
  · intro c _
    exact ⟨min_le_left _ _, min_le_right _ _⟩

/-- Witness for C1 at a concrete input: one clue equal to the anchor and
orthogonal to the target has relevance `min 1 0 = 0`. -/
theorem score_union_relevance_mean_of_min_witness :
    ([[(1 : ℚ), 0]] : List Vec) ≠ [] ∧
    (score_union ratSqrt [[(1 : ℚ), 0]] [1, 0] [0, 1]).relevance =
      listMean ([[(1 : ℚ), 0]].map (fun c =>
        min (cosine_similarity ratSqrt c [1, 0])
            (cosine_similarity ratSqrt c [0, 1]))) :=
  ⟨by decide, (score_union_relevance_mean_of_min ratSqrt [[(1 : ℚ), 0]]
      [1, 0] [0, 1] (by decide)).1⟩

/-!  ### `normalize_scores` (`scoring.py`)  -/

/-- The dictionary returned by `normalize_scores`. -/
structure NormalizedScores where
  relevance_normalized : ℚ
  divergence_normalized : ℚ
  relevance_raw : ℚ
  divergence_raw : ℚ
deriving Repr, DecidableEq

/-- `normalize_scores(participant_scores, null_distribution, method)`.
The dictionary accesses (`.get` with defaults) are embedded as explicit
arguments; the `ValueError` on an unknown method becomes `Except.error`.
`np.mean([raw > s for s in samples]) * 100` is embedded as the mean of
the 0/1 indicator list times 100. -/
def normalize_scores (rel_raw div_raw : ℚ)
    (relevance_samples divergence_samples : List ℚ)
    (relevance_mean relevance_std divergence_mean divergence_std : ℚ)
    (method : String) : Except String NormalizedScores :=
  if method = "percentile" then
    let rel_norm :=
      if relevance_samples ≠ [] then
        listMean (relevance_samples.map (fun s => if s < rel_raw then (1 : ℚ) else 0)) * 100
      else 50
    let div_norm :=
      if divergence_samples ≠ [] then
        listMean (divergence_samples.map (fun s => if s < div_raw then (1 : ℚ) else 0)) * 100
      else 50
    .ok ⟨rel_norm, div_norm, rel_raw, div_raw⟩
  else if method = "zscore" then
    let rel_norm :=
      if 0 < relevance_std then (rel_raw - relevance_mean) / relevance_std else 0
    let div_norm :=
      if 0 < divergence_std then (div_raw - divergence_mean) / divergence_std else 0
    .ok ⟨rel_norm, div_norm, rel_raw, div_raw⟩
  else .error ("Unknown method: " ++ method)

/-- The indicator-mean is the strict-less count divided by the length. -/
theorem indicatorMean_eq_countP (x : ℚ) (l : List ℚ) :
    listMean (l.map (fun s => if s < x then (1 : ℚ) else 0)) =
      (l.countP (fun s => decide (s < x)) : ℚ) / (l.length : ℚ) := by
  unfold listMean
  have hs : (l.map (fun s => if s < x then (1 : ℚ) else 0)).sum =
      (l.countP (fun s => decide (s < x)) : ℚ) := by
    induction l with
    | nil => simp
    | cons a t ih =>
      by_cases h : a < x <;> simp [List.countP_cons, h, ih, add_comm]
  rw [hs, List.length_map]

/-!  ### `app/services/cache/stats_cache.py`  -/

/-- One row of `_cosine_similarity_batch`: divide both vectors by their
norms (`sq ∘ sumSq`), then take the dot product.  Unlike
`cosine_similarity` there is no zero-norm guard in the source. -/
def normalizedDot (sq : ℚ → ℚ) (a reference : Vec) : ℚ :=
  dotQ (a.map (· / sq (sumSq a))) (reference.map (· / sq (sumSq reference)))

/-- The relevance score `_compute_null_distribution` assigns to one
bootstrap draw `idxs` (the output of the unseeded `rng.choice`):
`indices[0]` is the anchor, `indices[1]` the target, the rest the clues,
and the score is `(mean anchor_sims + mean target_sims) / 2`. -/
def statsSampleRelevance (sq : ℚ → ℚ) (vocab : List Vec) (idxs : List ℕ) : ℚ :=
  let anchor_emb := vocab.getD (idxs.getD 0 0) []
  let target_emb := vocab.getD (idxs.getD 1 0) []
  let clue_embs := (idxs.drop 2).map (fun i => vocab.getD i [])
  let anchor_sims := clue_embs.map (fun e => normalizedDot sq e anchor_emb)
  let target_sims := clue_embs.map (fun e => normalizedDot sq e target_emb)
  (listMean anchor_sims + listMean target_sims) / 2

/-- Ascending insertion, for the `np.sort` model. -/
def insertAsc (x : ℚ) : List ℚ → List ℚ
  | [] => [x]
  | h :: t => if x ≤ h then x :: h :: t else h :: insertAsc x t

/-- `np.sort` (ascending). -/
def sortAsc (l : List ℚ) : List ℚ := l.foldr insertAsc []

/-- `_compute_null_distribution(vocab_embeddings, num_clues, num_samples)`:
score `num_samples` random draws and return the sorted score array.  The
unseeded `np.random.default_rng()` is abstracted as the oracle `draw`,
where `draw i n size` stands for the i-th call of
`rng.choice(n, size=size, replace=False)`. -/
def compute_null_distribution (sq : ℚ → ℚ) (draw : ℕ → ℕ → ℕ → List ℕ)
    (vocab : List Vec) (num_clues num_samples : ℕ) : List ℚ :=
  sortAsc ((List.range num_samples).map (fun i =>
    statsSampleRelevance sq vocab (draw i vocab.length (2 + num_clues))))

/-- `np.searchsorted(dist, score)` (side `left`) on the sorted arrays the
cache stores: the length of the prefix of entries `< score`. -/
def searchsortedLeft (dist : List ℚ) (score : ℚ) : ℕ :=
  (dist.takeWhile (fun x => decide (x < score))).length

/-- `get_relevance_percentile(relevance_score, num_clues)`: the stored
distributions are a lookup table keyed by clue count; a missing key falls
back to `50.0`, otherwise `idx / len * 100` clamped to `[0.1, 99.9]`. -/
def get_relevance_percentile (dists : List (ℕ × List ℚ))
    (relevance_score : ℚ) (num_clues : ℕ) : ℚ :=
  match dists.lookup num_clues with
  | none => 50
  | some distribution =>
    let idx := searchsortedLeft distribution relevance_score
    let percentile := ((idx : ℚ) / (distribution.length : ℚ)) * 100
    min (999 / 10) (max (1 / 10) percentile)

/-!  ### Claims C4, C5, C6  -/

/-- Row-normalizing then taking the dot product equals
`dot / (norm_a * norm_b)` (with total rational division). -/
theorem normalizedDot_eq (sq : ℚ → ℚ) (a b : Vec) :
    normalizedDot sq a b = dotQ a b / (sq (sumSq a) * sq (sumSq b)) := by
  unfold normalizedDot dotQ
  generalize sq (sumSq a) = na
  generalize sq (sumSq b) = nb
  induction a generalizing b with
  | nil => simp
  | cons x xs ih =>
    cases b with
    | nil => simp
    | cons y ys =>
      simp only [List.map_cons, List.zipWith_cons_cons, List.sum_cons, ih ys,
        div_mul_div_comm, add_div]

/-- C4 (counterexample): a pre-built null-distribution sample is *not*
scored with `score_union`'s mean-of-min formula.  With vocabulary
`[e₁, e₂, e₁]` and a draw picking anchor `e₁`, target `e₂` and the single
clue `e₁`, the stats cache scores the draw `(1 + 0) / 2 = 1/2` while
`score_union` gives `min 1 0 = 0`. -/
theorem compute_null_distribution_not_score_union :
    compute_null_distribution ratSqrt (fun _ _ _ => [0, 1, 2])
        [[(1 : ℚ), 0], [0, 1], [1, 0]] 1 1 = [1/2] ∧
    (score_union ratSqrt [[(1 : ℚ), 0]] [1, 0] [0, 1]).relevance = 0 ∧
    ((1 : ℚ)/2) ≠ 0 := by
  refine ⟨?_, ?_, by norm_num⟩
  · norm_num [compute_null_distribution, statsSampleRelevance, normalizedDot,
      sortAsc, insertAsc, ratSqrt_one, dotQ, sumSq, listMean, List.range_succ]
  · norm_num [score_union, cosine_similarity, calculate_spread_clues_only,
      dotQ, sumSq, listMean, ratSqrt_one]

/-- C4 (amended): every sample of the pre-built null distribution scores a
random draw — whose first two indices are a random anchor and target —
as the *average* of the mean clue–anchor similarity and the mean
clue–target similarity, `(mean sim_a + mean sim_t) / 2`, not as the mean
of per-clue minima used for real submissions. -/
theorem compute_null_distribution_avg_formula (sq : ℚ → ℚ)
    (draw : ℕ → ℕ → ℕ → List ℕ) (vocab : List Vec) (num_clues num_samples : ℕ) :
    compute_null_distribution sq draw vocab num_clues num_samples =
      sortAsc ((List.range num_samples).map (fun i =>
        let idxs := draw i vocab.length (2 + num_clues)
        let anchor_emb := vocab.getD (idxs.getD 0 0) []
        let target_emb := vocab.getD (idxs.getD 1 0) []
        let clue_embs := (idxs.drop 2).map (fun j => vocab.getD j [])
        (listMean (clue_embs.map (fun e =>
            dotQ e anchor_emb / (sq (sumSq e) * sq (sumSq anchor_emb)))) +
         listMean (clue_embs.map (fun e =>
            dotQ e target_emb / (sq (sumSq e) * sq (sumSq target_emb))))) / 2)) := by
  unfold compute_null_distribution statsSampleRelevance
  simp only [normalizedDot_eq]

/-- C5 (counterexample): `normalize_scores` does *not* clamp the
percentile to `[0.1, 99.9]`: a real score above every null sample yields
exactly `100`. -/
theorem normalize_scores_no_clamping :
    normalize_scores 1 0 [0] [] 0 0 0 0 "percentile" =
      Except.ok ⟨100, 50, 1, 0⟩ ∧
    ¬ ((100 : ℚ) ≤ 999/10) := by
  refine ⟨?_, by norm_num⟩
  norm_num [normalize_scores, listMean]

/-- C5 (amended): with the percentile method and a non-empty sample list,
`normalize_scores` returns `100 × (fraction of null samples strictly less
than the real score)` — a value in `[0, 100]` that is *not* clamped to
`[0.1, 99.9]` (and can be exactly 0 or 100). -/
theorem normalize_scores_percentile_fraction
    (rel_raw div_raw rm rs dm ds : ℚ)
    (relevance_samples divergence_samples : List ℚ)
    (h : relevance_samples ≠ []) :
    ∃ r : NormalizedScores,
      normalize_scores rel_raw div_raw relevance_samples divergence_samples
          rm rs dm ds "percentile" = Except.ok r ∧
      r.relevance_normalized =
        ((relevance_samples.countP (fun s => decide (s < rel_raw)) : ℚ) /
          (relevance_samples.length : ℚ)) * 100 ∧
      0 ≤ r.relevance_normalized ∧ r.relevance_normalized ≤ 100 ∧
      r.relevance_raw = rel_raw := by
  refine ⟨_, rfl, ?_⟩
  have hif : (if relevance_samples ≠ [] then
      listMean (relevance_samples.map (fun s => if s < rel_raw then (1 : ℚ) else 0)) * 100
      else 50) =
      ((relevance_samples.countP (fun s => decide (s < rel_raw)) : ℚ) /
        (relevance_samples.length : ℚ)) * 100 := by
    rw [if_pos h, indicatorMean_eq_countP]
  have hlen : (0 : ℚ) < (relevance_samples.length : ℚ) := by
    exact_mod_cast List.length_pos.mpr h
  have hcount : (relevance_samples.countP (fun s => decide (s < rel_raw)) : ℚ) ≤
      (relevance_samples.length : ℚ) := by
    exact_mod_cast List.countP_le_length _
  constructor
  · exact hif
  refine ⟨?_, ?_, rfl⟩
  · rw [hif]
    positivity
  · rw [hif]
    have : ((relevance_samples.countP (fun s => decide (s < rel_raw)) : ℚ) /
        (relevance_samples.length : ℚ)) ≤ 1 := by
      rw [div_le_one hlen]; exact hcount
    calc ((relevance_samples.countP (fun s => decide (s < rel_raw)) : ℚ) /
          (relevance_samples.length : ℚ)) * 100 ≤ 1 * 100 := by
            exact mul_le_mul_of_nonneg_right this (by norm_num)
      _ = 100 := by norm_num

/-- Witness for C5's amended theorem at a concrete input. -/
theorem normalize_scores_percentile_fraction_witness :
    ([(0 : ℚ)] ≠ []) ∧
    ∃ r : NormalizedScores,
      normalize_scores 1 0 [0] [] 0 0 0 0 "percentile" = Except.ok r ∧
      r.relevance_normalized =
        ((([(0 : ℚ)].countP (fun s => decide (s < (1 : ℚ)))) : ℚ) /
          (([(0 : ℚ)].length : ℕ) : ℚ)) * 100 ∧
      0 ≤ r.relevance_normalized ∧ r.relevance_normalized ≤ 100 ∧
      r.relevance_raw = 1 :=
  ⟨by decide, normalize_scores_percentile_fraction 1 0 0 0 0 0 [0] [] (by decide)⟩

/-- `takeWhile (· < a)` yields a shorter-or-equal prefix than
`takeWhile (· < b)` when `a ≤ b`. -/
theorem takeWhile_lt_length_mono (l : List ℚ) {a b : ℚ} (hab : a ≤ b) :
    (l.takeWhile (fun x => decide (x < a))).length ≤
      (l.takeWhile (fun x => decide (x < b))).length := by
  induction l with
  | nil => simp
  | cons h t ih =>
    by_cases hha : h < a
    · have hhb : h < b := lt_of_lt_of_le hha hab
      simp [List.takeWhile, hha, hhb, ih]
    · simp [List.takeWhile, hha]

/-- C6: for a pre-built (and hence non-empty) distribution the percentile
lookup is monotone in the score and clamped into `[0.1, 99.9]`; for a
sample size that was never pre-built it returns exactly `50.0` (it is a
total function, so it never raises). -/
theorem get_relevance_percentile_monotone_bounded_fallback
    (dists : List (ℕ × List ℚ)) (s₁ s₂ : ℚ) (n : ℕ) (h₁₂ : s₁ ≤ s₂) :
    (get_relevance_percentile dists s₁ n ≤ get_relevance_percentile dists s₂ n) ∧
    (∀ dist, dists.lookup n = some dist →
      1/10 ≤ get_relevance_percentile dists s₁ n ∧
      get_relevance_percentile dists s₁ n ≤ 999/10) ∧
    (dists.lookup n = none → get_relevance_percentile dists s₁ n = 50) := by
  unfold get_relevance_percentile
  cases h : dists.lookup n with
  | none => exact ⟨le_refl _, fun dist hd => by simp [h] at hd, fun _ => rfl⟩
  | some distribution =>
    refine ⟨?_, ?_, ?_⟩
    · have hidx : (searchsortedLeft distribution s₁ : ℚ) ≤
          (searchsortedLeft distribution s₂ : ℚ) := by
        exact_mod_cast takeWhile_lt_length_mono distribution h₁₂
      have hdiv : (searchsortedLeft distribution s₁ : ℚ) / (distribution.length : ℚ) ≤
          (searchsortedLeft distribution s₂ : ℚ) / (distribution.length : ℚ) :=
        div_le_div_of_nonneg_right hidx (by positivity)
      exact min_le_min (le_refl _)
        (max_le_max (le_refl _) (mul_le_mul_of_nonneg_right hdiv (by norm_num)))
    · intro dist _
      constructor
      · exact le_min (by norm_num) (le_max_left _ _)
      · exact min_le_left _ _
    · intro hn; simp at hn

/-- Witness for C6: a table holding a distribution for 3 clues; lookups
for 3 clues are ordered and bounded, a lookup for 5 clues returns 50. -/
theorem get_relevance_percentile_witness :
    ((1 : ℚ)/2 ≤ 2) ∧
    (get_relevance_percentile [(3, [0, 1])] (1/2) 3 ≤
      get_relevance_percentile [(3, [0, 1])] 2 3) ∧
    (1/10 ≤ get_relevance_percentile [(3, [0, 1])] (1/2) 3) ∧
    (get_relevance_percentile [(3, [0, 1])] (1/2) 5 = 50) := by
  have hm := get_relevance_percentile_monotone_bounded_fallback
    [(3, [(0 : ℚ), 1])] (1/2) 2 3 (by norm_num)
  have hf := get_relevance_percentile_monotone_bounded_fallback
    [(3, [(0 : ℚ), 1])] (1/2) 2 5 (by norm_num)
  exact ⟨by norm_num, hm.1, (hm.2.1 [0, 1] rfl).1, hf.2.2 rfl⟩

/-!  ## `app/services/scoring_bridging.py`

Words are embedded as `List Char`.  `_get_word_stem` and
`_is_morphological_variant` are pure string functions; `find_lexical_union`
is embedded with its two provider inputs (the anchor/target embeddings and
the midpoint-neighbourhood candidate list returned by the
`get_noise_floor_by_embedding` RPC) as explicit arguments. -/

/-- `str.lower()` on one character. -/
def charToLower (c : Char) : Char :=
  if 'A' ≤ c ∧ c ≤ 'Z' then Char.ofNat (c.toNat + 32) else c

/-- `str.lower()`. -/
def wordToLower (w : List Char) : List Char := w.map charToLower

/-- `str.startswith`. -/
def strStartsWith : List Char → List Char → Bool
  | _, [] => true
  | [], _ :: _ => false
  | c :: cs, p :: ps => c = p && strStartsWith cs ps

/-- `str.endswith`. -/
def strEndsWith (w s : List Char) : Bool := strStartsWith w.reverse s.reverse

/-- The ordered suffix list of `_get_word_stem` (checked longest-ish
first, first match wins). -/
def stemSuffixList : List (List Char) :=
  ["ically".toList, "ation".toList, "ness".toList, "ment".toList, "able".toList,
   "ible".toList, "tion".toList, "sion".toList, "ally".toList, "ful".toList,
   "less".toList, "ing".toList, "ity".toList, "ous".toList, "ive".toList,
   "est".toList, "ier".toList, "ies".toList, "ied".toList, "ly".toList,
   "ed".toList, "er".toList, "en".toList, "es".toList, "s".toList]

/-- The suffix loop of `_get_word_stem`: strip the first suffix that
matches with `len(word) > len(suffix) + 2`, else return the word. -/
def stripFirstSuffix (w : List Char) : List (List Char) → List Char
  | [] => w
  | suf :: rest =>
    if strEndsWith w suf && decide (suf.length + 2 < w.length) then
      w.take (w.length - suf.length)
    else stripFirstSuffix w rest

/-- `_get_word_stem(word)`. -/
def get_word_stem (word : List Char) : List Char :=
  stripFirstSuffix (wordToLower word) stemSuffixList

/-- `_is_morphological_variant(word1, word2)`: exact match, or
one-is-a-prefix-of-the-other with length difference at most 4, or equal
stems. -/
def is_morphological_variant (word1 word2 : List Char) : Bool :=
  let w1 := wordToLower word1
  let w2 := wordToLower word2
  if w1 = w2 then true
  else if (strStartsWith w1 w2 || strStartsWith w2 w1) &&
      decide (((w1.length : ℤ) - (w2.length : ℤ)).natAbs ≤ 4) then true
  else if get_word_stem w1 = get_word_stem w2 then true
  else false

/-- C3: evaluating the detector at the four specified pairs.  The code
returns `false` for `mystery/mysteries` (stems `mystery` vs `myster`),
`mystery/mysteriously` (stems `mystery` vs `mysterious`) and
`certainty/uncertainty` (no common-prefix stripping exists in the code),
where the claim expects `true`; it returns `false` for
`mystery/assurance` as the claim expects. -/
theorem is_morphological_variant_eval :
    is_morphological_variant "mystery".toList "mysteries".toList = false ∧
    is_morphological_variant "mystery".toList "mysteriously".toList = false ∧
    is_morphological_variant "certainty".toList "uncertainty".toList = false ∧
    is_morphological_variant "mystery".toList "assurance".toList = false := by
  refine ⟨by decide, by decide, by decide, by decide⟩

/-!  ### `find_lexical_union`  -/

/-- Elementwise vector difference (`word_vec - anchor_vec`). -/
def vecSub (a b : Vec) : Vec := List.zipWith (· - ·) a b

/-- The candidate score of `find_lexical_union`:
`0.8 · 1/(1+|d_a − d_t|) + 0.2 · 1/(1+(d_a+d_t)/2)` where `d_a`, `d_t`
are the Euclidean distances to the anchor and target embeddings. -/
def combinedScore (sq : ℚ → ℚ) (emb anchor_vec target_vec : Vec) : ℚ :=
  let dist_to_anchor := sq (sumSq (vecSub emb anchor_vec))
  let dist_to_target := sq (sumSq (vecSub emb target_vec))
  let equidistance_score := 1 / (1 + |dist_to_anchor - dist_to_target|)
  let avg_distance := (dist_to_anchor + dist_to_target) / 2
  let proximity_score := 1 / (1 + avg_distance)
  equidistance_score * (4/5) + proximity_score * (1/5)

/-- Stable descending insertion on the score component — the model of
Python's stable `sort(key=score, reverse=True)`. -/
def insertDescBy (x : List Char × ℚ) : List (List Char × ℚ) → List (List Char × ℚ)
  | [] => [x]
  | h :: t => if h.2 > x.2 then h :: insertDescBy x t else x :: h :: t

/-- Stable descending sort by score. -/
def sortByScoreDesc (l : List (List Char × ℚ)) : List (List Char × ℚ) :=
  l.foldr insertDescBy []

/-- The greedy selection loop of `find_lexical_union`: walk the sorted
candidates, skip morphological variants of any used word, append the
word (and its lowercase form to the used list), and stop once
`num_concepts` words are selected. -/
def selectUnionWords : List (List Char × ℚ) → List (List Char) → ℕ → List (List Char)
  | [], _, _ => []
  | (word, _) :: rest, used_words, num_concepts =>
    if used_words.any (fun u => is_morphological_variant word u) then
      selectUnionWords rest used_words num_concepts
    else
      word :: (if num_concepts ≤ 1 then []
               else selectUnionWords rest (used_words ++ [wordToLower word]) (num_concepts - 1))

/-- `find_lexical_union(anchor, target, num_concepts, supabase)`: filter
out variants of anchor/target, score every candidate with
`combinedScore`, sort descending, and select greedily. -/
def find_lexical_union (sq : ℚ → ℚ) (anchor target : List Char)
    (anchor_vec target_vec : Vec) (candidates : List (List Char × Vec))
    (num_concepts : ℕ) : List (List Char) :=
  if candidates = [] then []
  else
    let scored_candidates := (candidates.filter (fun c =>
        !(is_morphological_variant c.1 anchor || is_morphological_variant c.1 target))).map
      (fun c => (c.1, combinedScore sq c.2 anchor_vec target_vec))
    let sorted := sortByScoreDesc scored_candidates
    selectUnionWords sorted [wordToLower anchor, wordToLower target] num_concepts

/-- Modelled from the spec's words, for comparison with
`find_lexical_union` only: score every candidate by
`sim(word, anchor) + sim(word, target)` and select greedily by
descending joint similarity (same variant filtering and selection
shell). -/
def jointSimilarityUnionSpec (sq : ℚ → ℚ) (anchor target : List Char)
    (anchor_vec target_vec : Vec) (candidates : List (List Char × Vec))
    (num_concepts : ℕ) : List (List Char) :=
  if candidates = [] then []
  else
    let scored_candidates := (candidates.filter (fun c =>
        !(is_morphological_variant c.1 anchor || is_morphological_variant c.1 target))).map
      (fun c => (c.1, cosine_similarity sq c.2 anchor_vec + cosine_similarity sq c.2 target_vec))
    selectUnionWords (sortByScoreDesc scored_candidates)
      [wordToLower anchor, wordToLower target] num_concepts

/-- C2 (counterexample): the code does *not* rank by joint similarity.
Anchor embedding `(0,3)`, target embedding `(4,0)`; candidate `gamma` at
the origin has joint similarity 0 but combined score `4/9`; candidate
`delta` equal to the anchor embedding has joint similarity 1 but combined
score `4/21`.  The code returns `[gamma, delta]`, joint-similarity
ranking returns `[delta, gamma]`. -/
theorem find_lexical_union_not_joint_similarity :
    find_lexical_union ratSqrt "alpha".toList "beta".toList [0, 3] [4, 0]
      [("gamma".toList, [0, 0]), ("delta".toList, [0, 3])] 2 =
      ["gamma".toList, "delta".toList] ∧
    jointSimilarityUnionSpec ratSqrt "alpha".toList "beta".toList [0, 3] [4, 0]
      [("gamma".toList, [0, 0]), ("delta".toList, [0, 3])] 2 =
      ["delta".toList, "gamma".toList] ∧
    (["gamma".toList, "delta".toList] : List (List Char)) ≠
      ["delta".toList, "gamma".toList] := by
  have h1 : is_morphological_variant ['g','a','m','m','a'] ['a','l','p','h','a'] = false := by decide
  have h2 : is_morphological_variant ['g','a','m','m','a'] ['b','e','t','a'] = false := by decide
  have h3 : is_morphological_variant ['d','e','l','t','a'] ['a','l','p','h','a'] = false := by decide
  have h4 : is_morphological_variant ['d','e','l','t','a'] ['b','e','t','a'] = false := by decide
  have h9 : is_morphological_variant ['d','e','l','t','a'] ['g','a','m','m','a'] = false := by decide
  have h10 : is_morphological_variant ['g','a','m','m','a'] ['d','e','l','t','a'] = false := by decide
  have hla : wordToLower ['a','l','p','h','a'] = ['a','l','p','h','a'] := by decide
  have hlb : wordToLower ['b','e','t','a'] = ['b','e','t','a'] := by decide
  have hlg : wordToLower ['g','a','m','m','a'] = ['g','a','m','m','a'] := by decide
  have hld : wordToLower ['d','e','l','t','a'] = ['d','e','l','t','a'] := by decide
  have hg : combinedScore ratSqrt [0, 0] [0, 3] [4, 0] = 4/9 := by
    norm_num [combinedScore, vecSub, sumSq, ratSqrt_nine, ratSqrt_sixteen, abs]
  have hd : combinedScore ratSqrt [0, 3] [0, 3] [4, 0] = 4/21 := by
    norm_num [combinedScore, vecSub, sumSq, ratSqrt_zero, ratSqrt_twentyfive, abs]
  have hcg : cosine_similarity ratSqrt [0, 0] [0, 3] +
      cosine_similarity ratSqrt [0, 0] [4, 0] = 0 := by
    norm_num [cosine_similarity, dotQ, sumSq, ratSqrt_zero, ratSqrt_nine, ratSqrt_sixteen]
  have hcd : cosine_similarity ratSqrt [0, 3] [0, 3] +
      cosine_similarity ratSqrt [0, 3] [4, 0] = 1 := by
    norm_num [cosine_similarity, dotQ, sumSq, ratSqrt_nine, ratSqrt_sixteen]
  refine ⟨?_, ?_, by decide⟩
  · norm_num [find_lexical_union, h1, h2, h3, h4, h9, hla, hlb, hlg, hg, hd,
      sortByScoreDesc, insertDescBy, selectUnionWords]
    intro hcontr
    simp at hcontr
  · norm_num [jointSimilarityUnionSpec, h1, h2, h3, h4, h10, hla, hlb, hld, hcg, hcd,
      sortByScoreDesc, insertDescBy, selectUnionWords]
    intro hcontr
    simp at hcontr

/-- C2 (amended): `find_lexical_union` ranks the variant-filtered
candidates by `0.8 · 1/(1+|d_a − d_t|) + 0.2 · 1/(1+(d_a+d_t)/2)`
(equidistance between the two anchors plus a midpoint-proximity
tie-breaker, over Euclidean distances), and selects greedily by
descending value of that combined score. -/
theorem find_lexical_union_equidistance_ranking (sq : ℚ → ℚ)
    (anchor target : List Char) (anchor_vec target_vec : Vec)
    (candidates : List (List Char × Vec)) (num_concepts : ℕ) :
    find_lexical_union sq anchor target anchor_vec target_vec candidates num_concepts =
      selectUnionWords
        (sortByScoreDesc ((candidates.filter (fun c =>
            !(is_morphological_variant c.1 anchor ||
              is_morphological_variant c.1 target))).map
          (fun c =>
            (c.1,
              (1 / (1 + |sq (sumSq (vecSub c.2 anchor_vec)) -
                  sq (sumSq (vecSub c.2 target_vec))|)) * (4/5) +
              (1 / (1 + (sq (sumSq (vecSub c.2 anchor_vec)) +
                  sq (sumSq (vecSub c.2 target_vec))) / 2)) * (1/5)))))
        [wordToLower anchor, wordToLower target] num_concepts := by
  by_cases h : candidates = []
  · subst h
    simp [find_lexical_union, sortByScoreDesc, selectUnionWords]
  · simp [find_lexical_union, h, combinedScore]

/-!  ## `app/services/cache/embedding_cache.py`

The `OrderedDict` is embedded as an association list whose front is the
least-recently-used entry; each entry is `(key, embedding, storedAt)`.
`time.time()` during one call is embedded as the single value `now`.
The OpenAI client is abstracted as the pure function `f`; the batch
operation additionally returns the list of provider calls it issued
(each call being the list of texts it carried). -/

/-- Python whitespace characters relevant to `str.strip()`. -/
def isSpaceChar (c : Char) : Bool :=
  c = ' ' || c = '\t' || c = '\n' || c = '\r' || c = '\x0b' || c = '\x0c'

/-- `str.strip()`. -/
def stripChars (w : List Char) : List Char :=
  ((w.dropWhile isSpaceChar).reverse.dropWhile isSpaceChar).reverse

/-- `_normalize_key(text) = text.lower().strip()`. -/
def normalize_key (text : List Char) : List Char := stripChars (wordToLower text)

/-- The mutable state of an `EmbeddingCache` (entries plus the hit/miss
counters). -/
structure EmbCacheState where
  entries : List (List Char × Vec × ℚ)
  hits : ℕ
  misses : ℕ
deriving Repr, DecidableEq

/-- Dictionary lookup (`key in self._cache` / `self._cache[key]`). -/
def lookupEntry (key : List Char) : List (List Char × Vec × ℚ) → Option (Vec × ℚ)
  | [] => none
  | (k, v, t) :: rest => if k = key then some (v, t) else lookupEntry key rest

/-- `del self._cache[key]` (also the erase half of `move_to_end`). -/
def removeKey (key : List Char) : List (List Char × Vec × ℚ) → List (List Char × Vec × ℚ)
  | [] => []
  | (k, v, t) :: rest => if k = key then rest else (k, v, t) :: removeKey key rest

/-- `_get_from_cache(key)`: on a fresh hit, move the entry to the
most-recently-used end and count a hit; delete an expired entry; count a
miss otherwise.  `_is_expired(ts)` is `now - ts > ttl`. -/
def get_from_cache (ttl now : ℚ) (key : List Char) (s : EmbCacheState) :
    Option Vec × EmbCacheState :=
  match lookupEntry key s.entries with
  | some (embedding, ts) =>
    if now - ts > ttl then
      ({ s with entries := removeKey key s.entries, misses := s.misses + 1 } : EmbCacheState)
        |> fun s' => (none, s')
    else
      (some embedding,
        { s with entries := removeKey key s.entries ++ [(key, embedding, ts)],
                 hits := s.hits + 1 })
  | none => (none, { s with misses := s.misses + 1 })

/-- The `while len(self._cache) >= self._max_size: popitem(last=False)`
loop: pop the least-recently-used (front) entry while at capacity. -/
def evictToCap (max_size : ℕ) : List (List Char × Vec × ℚ) → List (List Char × Vec × ℚ)
  | [] => []
  | e :: rest =>
    if max_size ≤ (e :: rest).length then evictToCap max_size rest else e :: rest

/-- `self._cache[key] = (embedding, now)`: update in place for an
existing key (an `OrderedDict` assignment keeps the position), append at
the most-recently-used end otherwise. -/
def setEntry (key : List Char) (v : Vec) (now : ℚ) :
    List (List Char × Vec × ℚ) → List (List Char × Vec × ℚ)
  | [] => [(key, v, now)]
  | (k, v0, t0) :: rest =>
    if k = key then (k, v, now) :: rest else (k, v0, t0) :: setEntry key v now rest

/-- `_put_in_cache(key, embedding)`: evict to capacity, then store. -/
def put_in_cache (max_size : ℕ) (now : ℚ) (key : List Char) (embedding : Vec)
    (s : EmbCacheState) : EmbCacheState :=
  { s with entries := setEntry key embedding now (evictToCap max_size s.entries) }

/-- The first loop of `get_embeddings_batch`: check the cache for each
text in order (threading the cache state), collecting the per-position
result (`some` on a hit, `none` on a miss) and the miss list
`(index, key, original text)` in input order. -/
def scanTexts (ttl now : ℚ) (s : EmbCacheState) (i : ℕ) :
    List (List Char) →
      List (Option Vec) × List (ℕ × List Char × List Char) × EmbCacheState
  | [] => ([], [], s)
  | text :: rest =>
    let key := normalize_key text
    let got := get_from_cache ttl now key s
    let tail := scanTexts ttl now got.2 (i + 1) rest
    match got.1 with
    | some e => (some e :: tail.1, tail.2.1, tail.2.2)
    | none => (none :: tail.1, (i, key, text) :: tail.2.1, tail.2.2)

/-- The fill loop of `get_embeddings_batch`: for each `(miss, embedding)`
pair, `_put_in_cache(key, embedding)` and `results[idx] = embedding`
(`base` is 0 at the top level; it generalizes the absolute indices for
the inductive proofs). -/
def fillMisses (max_size : ℕ) (now : ℚ) (base : ℕ) :
    List ((ℕ × List Char × List Char) × Vec) → List (Option Vec) → EmbCacheState →
      List (Option Vec) × EmbCacheState
  | [], results, s => (results, s)
  | (m, embedding) :: rest, results, s =>
    fillMisses max_size now base rest
      (results.set (m.1 - base) (some embedding))
      (put_in_cache max_size now m.2.1 embedding s)

/-- `get_embeddings_batch(texts)`: returns the ordered embeddings, the
final cache state, and the list of provider calls issued (each carrying
its batch of texts). -/
def get_embeddings_batch (f : List Char → Vec) (max_size : ℕ) (ttl now : ℚ)
    (s : EmbCacheState) (texts : List (List Char)) :
    List Vec × EmbCacheState × List (List (List Char)) :=
  if texts = [] then ([], s, [])
  else
    let scanned := scanTexts ttl now s 0 texts
    let results := scanned.1
    let missList := scanned.2.1
    let s1 := scanned.2.2
    if missList = [] then (results.map (fun o => o.getD []), s1, [])
    else
      let miss_texts := missList.map (fun m => m.2.2)
      let response := miss_texts.map f
      let filled := fillMisses max_size now 0 (missList.zip response) results s1
      (filled.1.map (fun o => o.getD []), filled.2, [miss_texts])

/-- Specification shape for the batch result: each position holds its
cache-hit value, or the provider's embedding of the original text,
following the same sequence of cache reads. -/
def batchValuesSpec (f : List Char → Vec) (ttl now : ℚ) (s : EmbCacheState) :
    List (List Char) → List Vec
  | [] => []
  | text :: rest =>
    let got := get_from_cache ttl now (normalize_key text) s
    (match got.1 with
     | some e => e
     | none => f text) :: batchValuesSpec f ttl now got.2 rest

/-- Specification shape for the missed texts, in input order. -/
def batchMissesSpec (ttl now : ℚ) (s : EmbCacheState) :
    List (List Char) → List (List Char)
  | [] => []
  | text :: rest =>
    let got := get_from_cache ttl now (normalize_key text) s
    match got.1 with
    | some _ => batchMissesSpec ttl now got.2 rest
    | none => text :: batchMissesSpec ttl now got.2 rest

/-- Specification shape for the `(key, fetched embedding)` pairs inserted
into the cache, in input order. -/
def batchMissPairsSpec (f : List Char → Vec) (ttl now : ℚ) (s : EmbCacheState) :
    List (List Char) → List (List Char × Vec)
  | [] => []
  | text :: rest =>
    let got := get_from_cache ttl now (normalize_key text) s
    match got.1 with
    | some _ => batchMissPairsSpec f ttl now got.2 rest
    | none => (normalize_key text, f text) :: batchMissPairsSpec f ttl now got.2 rest

/-- Specification shape for the cache state after the scan phase. -/
def batchScanStateSpec (ttl now : ℚ) (s : EmbCacheState) :
    List (List Char) → EmbCacheState
  | [] => s
  | text :: rest =>
    batchScanStateSpec ttl now (get_from_cache ttl now (normalize_key text) s).2 rest

/-- Inserting a list of fetched embeddings, in order. -/
def putAllSpec (max_size : ℕ) (now : ℚ) (pairs : List (List Char × Vec))
    (s : EmbCacheState) : EmbCacheState :=
  pairs.foldl (fun st p => put_in_cache max_size now p.1 p.2 st) s

/-- Every miss recorded while scanning from position `i` has index `≥ i`. -/
theorem scanTexts_indices_ge (ttl now : ℚ) :
    ∀ (texts : List (List Char)) (s : EmbCacheState) (i : ℕ),
      ∀ p ∈ (scanTexts ttl now s i texts).2.1, i ≤ p.1 := by
  intro texts
  induction texts with
  | nil => intro s i p hp; simp [scanTexts] at hp
  | cons text rest ih =>
    intro s i p hp
    cases hgot : (get_from_cache ttl now (normalize_key text) s).1 with
    | some e =>
      simp only [scanTexts, hgot] at hp
      exact le_trans (Nat.le_succ i) (ih _ (i + 1) p hp)
    | none =>
      simp only [scanTexts, hgot, List.mem_cons] at hp
      rcases hp with hp | hp
      · subst hp; exact le_refl i
      · exact le_trans (Nat.le_succ i) (ih _ (i + 1) p hp)

/-- Filling positions that are all beyond the head of the result list
commutes with the head. -/
theorem fillMisses_cons_commute (max_size : ℕ) (now : ℚ) :
    ∀ (pairs : List ((ℕ × List Char × List Char) × Vec)) (x : Option Vec)
      (res : List (Option Vec)) (sf : EmbCacheState) (base : ℕ),
      (∀ p ∈ pairs, base + 1 ≤ p.1.1) →
      fillMisses max_size now base pairs (x :: res) sf =
        ((x :: (fillMisses max_size now (base + 1) pairs res sf).1),
          (fillMisses max_size now (base + 1) pairs res sf).2) := by
  intro pairs
  induction pairs with
  | nil => intro x res sf base _; simp [fillMisses]
  | cons p rest ih =>
    intro x res sf base hb
    have hp : base + 1 ≤ p.1.1 := hb p (List.mem_cons_self _ _)
    have hsub : p.1.1 - base = (p.1.1 - (base + 1)) + 1 := by omega
    unfold fillMisses
    rw [hsub]
    simp only [List.set_cons_succ]
    exact ih _ _ _ _ (fun q hq => hb q (List.mem_cons_of_mem _ hq))

/-- The final cache state of the fill loop is the left fold of the puts. -/
theorem fillMisses_state (max_size : ℕ) (now : ℚ) :
    ∀ (pairs : List ((ℕ × List Char × List Char) × Vec))
      (res : List (Option Vec)) (sf : EmbCacheState) (base : ℕ),
      (fillMisses max_size now base pairs res sf).2 =
        pairs.foldl (fun st p => put_in_cache max_size now p.1.2.1 p.2 st) sf := by
  intro pairs
  induction pairs with
  | nil => intro res sf base; simp [fillMisses]
  | cons p rest ih =>
    intro res sf base
    unfold fillMisses
    rw [ih, List.foldl_cons]

/-- `l.zip (l.map g) = l.map (fun a => (a, g a))`. -/
theorem zip_self_map {α β : Type} (g : α → β) :
    ∀ l : List α, l.zip (l.map g) = l.map (fun a => (a, g a)) := by
  intro l
  induction l with
  | nil => simp
  | cons a t ih => simp [ih]

/-- Central lemma: scanning then filling the misses with the provider's
embeddings yields exactly the per-position hit-or-fetched values. -/
theorem scan_fill_values (f : List Char → Vec) (max_size : ℕ) (ttl now : ℚ) :
    ∀ (texts : List (List Char)) (s : EmbCacheState) (i : ℕ) (sf : EmbCacheState),
      (fillMisses max_size now i
        (((scanTexts ttl now s i texts).2.1).map (fun p => (p, f p.2.2)))
        ((scanTexts ttl now s i texts).1) sf).1 =
      (batchValuesSpec f ttl now s texts).map some := by
  intro texts
  induction texts with
  | nil => intro s i sf; simp [scanTexts, fillMisses, batchValuesSpec]
  | cons text rest ih =>
    intro s i sf
    have hidx : ∀ i' s', ∀ p ∈ ((scanTexts ttl now s' (i' + 1) rest).2.1).map
        (fun p => (p, f p.2.2)), i' + 1 ≤ p.1.1 := by
      intro i' s' p hp
      simp only [List.mem_map] at hp
      obtain ⟨q, hq, rfl⟩ := hp
      exact scanTexts_indices_ge ttl now rest _ (i' + 1) q hq
    cases hgot : (get_from_cache ttl now (normalize_key text) s).1 with
    | some e =>
      simp only [scanTexts, batchValuesSpec, hgot]
      rw [fillMisses_cons_commute max_size now _ _ _ _ _ (hidx i _)]
      simp only [List.map_cons]
      exact congrArg _ (ih _ (i + 1) sf)
    | none =>
      simp only [scanTexts, batchValuesSpec, hgot, List.map_cons]
      unfold fillMisses
      simp only [Nat.sub_self, List.set_cons_zero]
      rw [fillMisses_cons_commute max_size now _ _ _ _ _ (hidx i _)]
      simp only [List.map_cons]
      exact congrArg _ (ih _ (i + 1) _)

/-- The texts of the recorded misses are the specification's missed
texts, in input order. -/
theorem scanTexts_miss_texts (ttl now : ℚ) :
    ∀ (texts : List (List Char)) (s : EmbCacheState) (i : ℕ),
      ((scanTexts ttl now s i texts).2.1).map (fun m => m.2.2) =
        batchMissesSpec ttl now s texts := by
  intro texts
  induction texts with
  | nil => intro s i; simp [scanTexts, batchMissesSpec]
  | cons text rest ih =>
    intro s i
    cases hgot : (get_from_cache ttl now (normalize_key text) s).1 with
    | some e => simp only [scanTexts, batchMissesSpec, hgot]; exact ih _ (i + 1)
    | none =>
      simp only [scanTexts, batchMissesSpec, hgot, List.map_cons]
      rw [ih _ (i + 1)]

/-- The `(key, fetched value)` pairs of the recorded misses are the
specification's pairs, in input order. -/
theorem scanTexts_miss_pairs (f : List Char → Vec) (ttl now : ℚ) :
    ∀ (texts : List (List Char)) (s : EmbCacheState) (i : ℕ),
      ((scanTexts ttl now s i texts).2.1).map (fun m => (m.2.1, f m.2.2)) =
        batchMissPairsSpec f ttl now s texts := by
  intro texts
  induction texts with
  | nil => intro s i; simp [scanTexts, batchMissPairsSpec]
  | cons text rest ih =>
    intro s i
    cases hgot : (get_from_cache ttl now (normalize_key text) s).1 with
    | some e => simp only [scanTexts, batchMissPairsSpec, hgot]; exact ih _ (i + 1)
    | none =>
      simp only [scanTexts, batchMissPairsSpec, hgot, List.map_cons]
      rw [ih _ (i + 1)]

/-- The state after scanning is the specification's scan state. -/
theorem scanTexts_state (ttl now : ℚ) :
    ∀ (texts : List (List Char)) (s : EmbCacheState) (i : ℕ),
      (scanTexts ttl now s i texts).2.2 = batchScanStateSpec ttl now s texts := by
  intro texts
  induction texts with
  | nil => intro s i; simp [scanTexts, batchScanStateSpec]
  | cons text rest ih =>
    intro s i
    cases hgot : (get_from_cache ttl now (normalize_key text) s).1 with
    | some e => simp only [scanTexts, batchScanStateSpec, hgot]; exact ih _ (i + 1)
    | none => simp only [scanTexts, batchScanStateSpec, hgot]; exact ih _ (i + 1)

/-- The specification values list has one entry per input text. -/
theorem batchValuesSpec_length (f : List Char → Vec) (ttl now : ℚ) :
    ∀ (texts : List (List Char)) (s : EmbCacheState),
      (batchValuesSpec f ttl now s texts).length = texts.length := by
  intro texts
  induction texts with
  | nil => intro s; simp [batchValuesSpec]
  | cons text rest ih => intro s; simp only [batchValuesSpec, List.length_cons, ih]

/-- The batch call as one tuple equation: ordered per-position values,
the scan state with every fetched pair inserted, and at most one
provider call carrying exactly the missed texts. -/
theorem get_embeddings_batch_eq (f : List Char → Vec) (max_size : ℕ)
    (ttl now : ℚ) (s : EmbCacheState) (texts : List (List Char)) :
    get_embeddings_batch f max_size ttl now s texts =
      (batchValuesSpec f ttl now s texts,
        putAllSpec max_size now (batchMissPairsSpec f ttl now s texts)
          (batchScanStateSpec ttl now s texts),
        (if batchMissesSpec ttl now s texts = [] then []
         else [batchMissesSpec ttl now s texts])) := by
  by_cases hT : texts = []
  · subst hT
    simp [get_embeddings_batch, batchValuesSpec, batchMissesSpec,
      batchMissPairsSpec, batchScanStateSpec, putAllSpec]
  · by_cases hM : (scanTexts ttl now s 0 texts).2.1 = []
    · have hres : (scanTexts ttl now s 0 texts).1 =
          (batchValuesSpec f ttl now s texts).map some := by
        have h5 := scan_fill_values f max_size ttl now texts s 0
          (scanTexts ttl now s 0 texts).2.2
        rw [hM] at h5
        simpa [fillMisses] using h5
      have hmiss : batchMissesSpec ttl now s texts = [] := by
        rw [← scanTexts_miss_texts ttl now texts s 0, hM]; rfl
      have hpairs : batchMissPairsSpec f ttl now s texts = [] := by
        rw [← scanTexts_miss_pairs f ttl now texts s 0, hM]; rfl
      simp only [get_embeddings_batch, hT, hM, if_neg, if_pos, ite_false, ite_true,
        hmiss, hpairs, Prod.mk.injEq]
      refine ⟨?_, ?_, trivial⟩
      · rw [hres, List.map_map]
        simp [Function.comp_def]
      · rw [show putAllSpec max_size now [] (batchScanStateSpec ttl now s texts) =
            batchScanStateSpec ttl now s texts from rfl]
        exact scanTexts_state ttl now texts s 0
    · have hzip : (scanTexts ttl now s 0 texts).2.1.zip
          (((scanTexts ttl now s 0 texts).2.1.map (fun m => m.2.2)).map f) =
          (scanTexts ttl now s 0 texts).2.1.map (fun p => (p, f p.2.2)) := by
        rw [List.map_map]
        exact zip_self_map _ _
      have hmiss : batchMissesSpec ttl now s texts ≠ [] := by
        rw [← scanTexts_miss_texts ttl now texts s 0]
        simpa using hM
      simp only [get_embeddings_batch, hT, hM, ite_false, ite_true, if_neg hmiss,
        Prod.mk.injEq]
      refine ⟨?_, ?_, ?_⟩
      · rw [hzip, scan_fill_values f max_size ttl now texts s 0, List.map_map]
        simp [Function.comp_def]
      · rw [hzip, fillMisses_state, List.foldl_map]
        unfold putAllSpec
        rw [← scanTexts_miss_pairs f ttl now texts s 0, List.foldl_map,
          ← scanTexts_state ttl now texts s 0]
      · rw [scanTexts_miss_texts ttl now texts s 0]
  
/-- C7: the batch embedding operation returns one embedding per input
text in input order — each position its cache-hit value or the
provider's embedding of that text — issues no provider call when every
text hits and exactly one call carrying exactly the missed texts
otherwise, and inserts every fetched `(key, embedding)` pair into the
cache. -/
theorem get_embeddings_batch_ordered (f : List Char → Vec) (max_size : ℕ)
    (ttl now : ℚ) (s : EmbCacheState) (texts : List (List Char)) :
    (get_embeddings_batch f max_size ttl now s texts).1 =
      batchValuesSpec f ttl now s texts ∧
    (get_embeddings_batch f max_size ttl now s texts).1.length = texts.length ∧
    (get_embeddings_batch f max_size ttl now s texts).2.2 =
      (if batchMissesSpec ttl now s texts = [] then []
       else [batchMissesSpec ttl now s texts]) ∧
    (get_embeddings_batch f max_size ttl now s texts).2.1 =
      putAllSpec max_size now (batchMissPairsSpec f ttl now s texts)
        (batchScanStateSpec ttl now s texts) := by
  rw [get_embeddings_batch_eq f max_size ttl now s texts]
  exact ⟨rfl, batchValuesSpec_length f ttl now texts s, rfl, rfl⟩

/-- After the eviction loop the cache holds fewer than `max_size`
entries (for a positive capacity). -/
theorem evictToCap_length_lt (max_size : ℕ) (hm : 1 ≤ max_size) :
    ∀ l : List (List Char × Vec × ℚ), (evictToCap max_size l).length < max_size := by
  intro l
  induction l with
  | nil => simpa [evictToCap] using hm
  | cons e rest ih =>
    unfold evictToCap
    by_cases h : max_size ≤ (e :: rest).length
    · rw [if_pos h]; exact ih
    · rw [if_neg h]; omega

/-- A dictionary assignment grows the entry list by at most one. -/
theorem setEntry_length_le (key : List Char) (v : Vec) (now : ℚ) :
    ∀ l : List (List Char × Vec × ℚ), (setEntry key v now l).length ≤ l.length + 1 := by
  intro l
  induction l with
  | nil => simp [setEntry]
  | cons e rest ih =>
    unfold setEntry
    by_cases h : e.1 = key
    · rcases e with ⟨k, v0, t0⟩; rw [if_pos h]; simp
    · rcases e with ⟨k, v0, t0⟩
      rw [if_neg h]
      simpa using Nat.succ_le_succ ih

/-- The eviction loop leaves a below-capacity cache untouched. -/
theorem evictToCap_of_lt (max_size : ℕ) (l : List (List Char × Vec × ℚ))
    (h : l.length < max_size) : evictToCap max_size l = l := by
  cases l with
  | nil => rfl
  | cons e rest => unfold evictToCap; rw [if_neg (by omega)]

/-- C8: the LRU/capacity contract of the embedding cache.  (i) a put
never leaves more than `max_size` entries; (ii) a put into a cache at
capacity first evicts the front — least recently used — entry and then
stores into the remainder; (iii) a read of a present, unexpired key
returns its embedding, moves the entry to the most-recently-used end and
counts a hit. -/
theorem embedding_cache_lru (max_size : ℕ) (ttl now ts : ℚ) (key : List Char)
    (emb cachedEmb : Vec) (s : EmbCacheState) :
    (1 ≤ max_size → (put_in_cache max_size now key emb s).entries.length ≤ max_size) ∧
    (1 ≤ max_size → s.entries.length = max_size →
      (put_in_cache max_size now key emb s).entries =
        setEntry key emb now s.entries.tail) ∧
    (lookupEntry key s.entries = some (cachedEmb, ts) → ¬(now - ts > ttl) →
      get_from_cache ttl now key s =
        (some cachedEmb,
          { s with entries := removeKey key s.entries ++ [(key, cachedEmb, ts)],
                   hits := s.hits + 1 })) := by
  refine ⟨?_, ?_, ?_⟩
  · intro hm
    have h1 := evictToCap_length_lt max_size hm s.entries
    have h2 := setEntry_length_le key emb now (evictToCap max_size s.entries)
    show (setEntry key emb now (evictToCap max_size s.entries)).length ≤ max_size
    omega
  · intro hm hlen
    unfold put_in_cache
    cases hs : s.entries with
    | nil => rw [hs] at hlen; simp at hlen; omega
    | cons e rest =>
      rw [hs] at hlen
      have : evictToCap max_size (e :: rest) = rest := by
        unfold evictToCap
        rw [if_pos (by omega)]
        exact evictToCap_of_lt max_size rest (by simp at hlen; omega)
      show setEntry key emb now (evictToCap max_size (e :: rest)) =
        setEntry key emb now (e :: rest).tail
      rw [this]
      rfl
  · intro hlook hexp
    unfold get_from_cache
    rw [hlook]
    simp only [if_neg hexp]

/-- Witness for C8 at a concrete two-entry cache of capacity 2. -/
theorem embedding_cache_lru_witness :
    ((put_in_cache 2 1 ['a'] [5]
        ⟨[(['a'], [1], 0), (['b'], [2], 0)], 0, 0⟩).entries.length ≤ 2) ∧
    ((put_in_cache 2 1 ['a'] [5]
        ⟨[(['a'], [1], 0), (['b'], [2], 0)], 0, 0⟩).entries =
      setEntry ['a'] [5] 1 ([(['a'], [1], 0), (['b'], [2], 0)] :
        List (List Char × Vec × ℚ)).tail) ∧
    (get_from_cache 10 1 ['a'] ⟨[(['a'], [1], 0), (['b'], [2], 0)], 0, 0⟩ =
      (some [1],
        ⟨removeKey ['a'] [(['a'], [1], 0), (['b'], [2], 0)] ++ [(['a'], [1], 0)],
          1, 0⟩)) := by
  have h := embedding_cache_lru 2 10 1 0 ['a'] [5] [1]
    ⟨[(['a'], [1], 0), (['b'], [2], 0)], 0, 0⟩
  refine ⟨h.1 (by norm_num), h.2.1 (by norm_num) rfl, ?_⟩
  have h3 := h.2.2 (by norm_num [lookupEntry]) (by norm_num)
  exact h3

/-!  ## `app/services/async_services/eager_precompute.py`

`_run_precomputation` launches four subtasks and gathers them with
`return_exceptions=True`.  Each subtask writes disjoint fields of the
task record, and the only inter-subtask data dependency is the null
sampler's busy-wait `while result.anchor_embedding is None:
await asyncio.sleep(0.1)`, so the reachable final states are a
deterministic function of the subtask outcomes; they are embedded as
`Except` arguments.  The busy-wait never terminates when the (uncaught)
anchor/target embedding subtask has raised, which the model renders as
the `hangs` outcome; the outer `try` (imports and singleton lookups,
which alone can produce `FAILED`) is outside the modelled subtask
space. -/

/-- `PrecomputeStatus`. -/
inductive PrecStatus where
  | pending
  | in_progress
  | completed
  | failed
deriving Repr, DecidableEq

/-- The precomputed fields of a `PrecomputeResult`. -/
structure PrecomputeResultModel where
  status : PrecStatus
  anchor_embedding : Option Vec
  target_embedding : Option Vec
  haiku_clues : Option (List (List Char))
  haiku_embeddings : Option (List Vec)
  lexical_bridge : Option (List (List Char))
  lexical_embeddings : Option (List Vec)
  null_samples : Option (List ℚ)
deriving Repr, DecidableEq

/-- The outcome of `_run_precomputation`: either the coroutine finishes
(with the final task record) or it never terminates. -/
inductive RunOutcome where
  | completed (r : PrecomputeResultModel)
  | hangs
deriving Repr, DecidableEq

/-- The per-draw relevance score of the null-sampling subtask:
normalize, dot with the normalized anchor and target, and average the
two mean similarities. -/
def eagerNullScore (sq : ℚ → ℚ) (vocabEmbs : List Vec)
    (anchor_emb target_emb : Vec) (idxs : List ℕ) : ℚ :=
  let sample_embs := idxs.map (fun i => vocabEmbs.getD i [])
  let anchor_sims := sample_embs.map (fun e => normalizedDot sq e anchor_emb)
  let target_sims := sample_embs.map (fun e => normalizedDot sq e target_emb)
  (listMean anchor_sims + listMean target_sims) / 2

/-- `_run_precomputation(result, anchor, target, recipient_type, supabase)`
as a function of the subtask outcomes.  `embedRes` is the anchor/target
embedding batch (no try/except of its own), `haikuRes` the generative
baseline with its clue embeddings, `lexicalRes` the lexical union with
its embeddings, `vocabRes` the vocabulary draw of the null sampler, and
`draw` the unseeded generator's index choices. -/
def runPrecomputation (sq : ℚ → ℚ) (recipient_type : String)
    (embedRes : Except String (Vec × Vec))
    (haikuRes : Except String (List (List Char) × List Vec))
    (lexicalRes : Except String (List (List Char) × List Vec))
    (vocabRes : Except String (List Vec))
    (draw : ℕ → List ℕ) : RunOutcome :=
  let anchorEmb : Option Vec :=
    match embedRes with | .ok (a, _) => some a | .error _ => none
  let targetEmb : Option Vec :=
    match embedRes with | .ok (_, t) => some t | .error _ => none
  let haikuClues : Option (List (List Char)) :=
    if recipient_type = "haiku" then
      match haikuRes with
      | .ok (clues, _) => some clues
      | .error _ => some []
    else none
  let haikuEmbs : Option (List Vec) :=
    if recipient_type = "haiku" then
      match haikuRes with
      | .ok (clues, embs) => if clues ≠ [] then some embs else none
      | .error _ => none
    else none
  let lexicalBridge : Option (List (List Char)) :=
    match lexicalRes with
    | .ok (words, _) => some words
    | .error _ => some []
  let lexicalEmbs : Option (List Vec) :=
    match lexicalRes with
    | .ok (words, embs) => if words ≠ [] then some embs else none
    | .error _ => none
  match vocabRes with
  | .error _ =>
    .completed ⟨.completed, anchorEmb, targetEmb, haikuClues, haikuEmbs,
      lexicalBridge, lexicalEmbs, some []⟩
  | .ok vocab_samples =>
    if 50 ≤ vocab_samples.length then
      match embedRes with
      | .error _ => .hangs
      | .ok (anchor_emb, target_emb) =>
        let null_scores := (List.range 100).map (fun i =>
          eagerNullScore sq vocab_samples anchor_emb target_emb (draw i))
        .completed ⟨.completed, anchorEmb, targetEmb, haikuClues, haikuEmbs,
          lexicalBridge, lexicalEmbs, some (sortAsc null_scores)⟩
    else
      .completed ⟨.completed, anchorEmb, targetEmb, haikuClues, haikuEmbs,
        lexicalBridge, lexicalEmbs, none⟩

/-- C9 (failing input): when the anchor/target embedding subtask raises
(e.g. the provider is unavailable) and the vocabulary pool has at least
50 samples, the null-sampling subtask busy-waits forever, so the run
never reaches `COMPLETED` — the claim expects every single-subtask
exception to be caught with the task still completing. -/
theorem precompute_embed_failure_hangs :
    runPrecomputation ratSqrt "human"
      (Except.error "embedding provider unavailable")
      (Except.ok ([], []))
      (Except.ok ([], []))
      (Except.ok (List.replicate 50 [0]))
      (fun _ => []) = RunOutcome.hangs := by
  rfl

/-!  ### `bootstrap_null_distribution` (`scoring.py`)

`np.random.default_rng(seed)` is a deterministic pure generator of the
seed; it is modelled as an LCG state threaded through the sample loop.
The `entropy` argument models the ambient OS entropy that an *unseeded*
`default_rng()` would consume — the source passes `seed`, so the
function never reads it. -/

/-- One step of the modelled generator. -/
def lcgNext (s : ℕ) : ℕ :=
  (6364136223846793005 * s + 1442695040888963407) % (2 ^ 64)

/-- Model of `rng.choice(n, size=k, replace=False)`: draw `k` distinct
elements of `avail`, threading the generator state. -/
def drawIndices (s : ℕ) (avail : List ℕ) : ℕ → List ℕ × ℕ
  | 0 => ([], s)
  | k + 1 =>
    if avail = [] then ([], s)
    else
      let s' := lcgNext s
      let i := s' % avail.length
      let x := avail.getD i 0
      let rest := drawIndices s' (avail.eraseIdx i) k
      (x :: rest.1, rest.2)

/-- `np.std` (population standard deviation); the square root is the
abstract `sq`. -/
def listStd (sq : ℚ → ℚ) (l : List ℚ) : ℚ :=
  sq (listMean (l.map (fun x => (x - listMean l) * (x - listMean l))))

/-- The prompt-embeddings dictionary (`{"seed": ...}` for radiation,
`{"anchor": ..., "target": ...}` for union). -/
structure PromptEmbeddings where
  seed : Vec
  anchor : Vec
  target : Vec
deriving Repr, DecidableEq

/-- The two instrument names accepted by `bootstrap_null_distribution`
(any other string raises `ValueError`). -/
inductive Instrument where
  | radiation
  | union
deriving Repr, DecidableEq

/-- The dictionary returned by `bootstrap_null_distribution`. -/
structure NullDist where
  relevance_mean : ℚ
  relevance_std : ℚ
  divergence_mean : ℚ
  divergence_std : ℚ
  relevance_samples : List ℚ
  divergence_samples : List ℚ
  n_clues : ℕ
deriving Repr, DecidableEq

/-- The bootstrap sample loop: per sample, draw `min(n_clues, n_vocab)`
vocabulary indices without replacement, score the random set with
`score_radiation` / `score_union`, and collect relevance and divergence. -/
def sampleLoop (sq : ℚ → ℚ) (prompts : PromptEmbeddings) (vocab : List Vec)
    (n_clues : ℕ) (instrument : Instrument) : ℕ → ℕ → List ℚ × List ℚ × ℕ
  | 0, st => ([], [], st)
  | n + 1, st =>
    let d := drawIndices st (List.range vocab.length) (min n_clues vocab.length)
    let sample_embeddings := d.1.map (fun i => vocab.getD i [])
    let scores :=
      match instrument with
      | .radiation => score_radiation sq sample_embeddings prompts.seed
      | .union => score_union sq sample_embeddings prompts.anchor prompts.target
    let rest := sampleLoop sq prompts vocab n_clues instrument n d.2
    (scores.relevance :: rest.1, scores.divergence :: rest.2.1, rest.2.2)

/-- `bootstrap_null_distribution(prompt_embeddings, vocabulary_embeddings,
n_clues, instrument, n_samples, seed)` (defaults in the source:
`n_samples=500`, `seed=42`).  The generator is initialized from `seed`
alone; `entropy` is never read. -/
def bootstrap_null_distribution (entropy : ℕ) (sq : ℚ → ℚ)
    (prompt_embeddings : PromptEmbeddings) (vocabulary_embeddings : List Vec)
    (n_clues : ℕ) (instrument : Instrument) (n_samples seed : ℕ) : NullDist :=
  if vocabulary_embeddings = [] ∨ n_clues = 0 then
    ⟨0, 0, 70, 0, [], [], n_clues⟩
  else
    let rng0 := lcgNext seed
    let r := sampleLoop sq prompt_embeddings vocabulary_embeddings n_clues
      instrument n_samples rng0
    ⟨listMean r.1, listStd sq r.1, listMean r.2.1, listStd sq r.2.1,
      r.1, r.2.1, n_clues⟩

/-- C10: the bootstrap builder is deterministic — with all of its
arguments fixed (prompt embeddings, vocabulary list, clue count,
instrument, sample count, and the seed, whose source-level default is
42), two invocations under different ambient entropy return identical
results: the whole dictionaries agree, in particular the means, the
standard deviations, and the sample arrays element for element.  Its
only randomness is the generator initialized from `seed`. -/
theorem bootstrap_null_distribution_deterministic
    (entropy₁ entropy₂ : ℕ) (sq : ℚ → ℚ) (prompts : PromptEmbeddings)
    (vocab : List Vec) (n_clues : ℕ) (instrument : Instrument)
    (n_samples seed : ℕ) :
    bootstrap_null_distribution entropy₁ sq prompts vocab n_clues
        instrument n_samples seed =
      bootstrap_null_distribution entropy₂ sq prompts vocab n_clues
        instrument n_samples seed ∧
    (bootstrap_null_distribution entropy₁ sq prompts vocab n_clues
        instrument n_samples seed).relevance_mean =
      (bootstrap_null_distribution entropy₂ sq prompts vocab n_clues
        instrument n_samples seed).relevance_mean ∧
    (bootstrap_null_distribution entropy₁ sq prompts vocab n_clues
        instrument n_samples seed).relevance_std =
      (bootstrap_null_distribution entropy₂ sq prompts vocab n_clues
        instrument n_samples seed).relevance_std ∧
    (bootstrap_null_distribution entropy₁ sq prompts vocab n_clues
        instrument n_samples seed).relevance_samples =
      (bootstrap_null_distribution entropy₂ sq prompts vocab n_clues
        instrument n_samples seed).relevance_samples ∧
    (bootstrap_null_distribution entropy₁ sq prompts vocab n_clues
        instrument n_samples seed).divergence_samples =
      (bootstrap_null_distribution entropy₂ sq prompts vocab n_clues
        instrument n_samples seed).divergence_samples :=
  ⟨rfl, rfl, rfl, rfl, rfl⟩
